import Mathlib

/-!
A shallow embedding of `src/main.py` of the PruningExplainability repository.

The program has two functions:

* `load_latest_checkpoints(path)` scans the immediate subdirectories of
  `path`, sorts each subdirectory's entries by filesystem modification time
  (newest first, Python `sorted(..., key=os.path.getmtime, reverse=True)`),
  loads a model from the newest entry of every non-empty subdirectory, and
  resolves a shared architecture label with
  `if not arch: arch = model.__class__.__name__`.
* `eval_models(...)` builds one `Evaluator(explainer(model, tokenizer, device))`
  per (explainer, model) pair, aggregates infidelity scores per explainer,
  renders a matplotlib bar chart and saves it to a collision-free path under
  `results/figs/`, probing suffixes `_1`, `_2`, ... with `os.path.exists`.

The filesystem is modelled by finite lists of directories and files together
with a listing function and a modification-time function.  Models, tokenizer,
device, infidelity scores and scoring errors are opaque type parameters; the
model loader (`AutoModelForSequenceClassification.from_pretrained`) and the
Evaluator's `evaluate_infidelity_mask_top_k` (whose implementation lives in
`evaluations/evaluator.py`, outside `src/`) are function parameters.
Explainer construction is instrumented with an allocation counter so that
Python object identity (freshness, sharing) is observable, and the model
loader's call sequence is logged so that "which checkpoint was loaded" is
observable.
-/

namespace PruningExplainability

/-- Decimal digit character, as produced by Python's `str` on an integer. -/
def digitChar (d : Nat) : Char := Char.ofNat (48 + d)

/-- Reversed decimal digit list of `n` (least significant digit first),
with explicit fuel (`n` itself is always enough fuel). -/
def revDigits : Nat → Nat → List Char
  | 0, _ => []
  | fuel+1, n => if n = 0 then [] else digitChar (n % 10) :: revDigits fuel (n / 10)

/-- Python's `str` on a natural number: its decimal rendering. -/
def pyNatStr (n : Nat) : String := if n = 0 then "0" else ⟨(revDigits n n).reverse⟩

/-- Decimal value of a reversed digit-character list (parsing inverse of `revDigits`). -/
def unDigits : List Char → Nat
  | [] => 0
  | c :: cs => (Char.toNat c - 48) + 10 * unDigits cs

/-- The j-th candidate path probed by the save loop of `eval_models`:
`save_path + ext` first, then `save_path + "_" + str(counter) + ext` for
`counter = 1, 2, ...` (lines 57–61 of `src/main.py`). -/
def cand (save_path ext : String) : Nat → String
  | 0 => save_path ++ ext
  | j+1 => save_path ++ "_" ++ pyNatStr (j+1) ++ ext

/-- `os.path.exists`: true iff the path is an existing file or directory. -/
def pathExistsB (files dirs : List String) (p : String) : Bool :=
  decide (p ∈ files) || decide (p ∈ dirs)

/-- The `while os.path.exists(file_path):` probe loop of `eval_models`
(lines 58–61).  One fuel unit per iteration; `files.length + dirs.length + 2`
units are provably sufficient (`exists_free_cand`), so the fuel-exhausted
branch is never reached. -/
def probeAux (files dirs : List String) (save_path ext : String) :
    String → Nat → Nat → String
  | file_path, _, 0 => file_path
  | file_path, counter, fuel+1 =>
    if pathExistsB files dirs file_path then
      probeAux files dirs save_path ext
        (save_path ++ "_" ++ pyNatStr counter ++ ext) (counter + 1) fuel
    else file_path

/-- The unique chart path chosen by `eval_models` (lines 56–61): starts from
`save_path + ext` with counter 1 and probes until an unused path is found. -/
def uniqueChartPath (files dirs : List String) (save_path ext : String) : String :=
  probeAux files dirs save_path ext (save_path ++ ext) 1
    (files.length + dirs.length + 2)

/-- A snapshot of the filesystem as observed through the `os` calls of
`src/main.py`: the (finitely many) existing directories and files, a listing
function (`os.listdir`, in listing order) and a modification-time function
(`os.path.getmtime`). -/
structure FS where
  dirs : List String
  entriesOf : String → List String
  mtime : String → Nat
  files : List String

/-- `os.path.join` on POSIX with a relative second component. -/
def pathJoin (a b : String) : String := a ++ "/" ++ b

/-- Python `dict` assignment `d[k] = v`: overwrites in place if the key is
present (keeping its insertion position), otherwise appends. -/
def dictInsert {α : Type} : List (String × α) → String → α → List (String × α)
  | [], k, v => [(k, v)]
  | (k', v') :: rest, k, v =>
    if k' = k then (k, v) :: rest else (k', v') :: dictInsert rest k v

/-- Python truthiness of the `arch` variable of `load_latest_checkpoints`
(line 110, `if not arch:`): `None` and the empty string are falsy. -/
def pyFalsy : Option String → Bool
  | none => true
  | some s => decide (s = "")

/-- Python `str` as applied to `arch` inside an f-string (`str(None) = "None"`). -/
def pyStrOfArch : Option String → String
  | none => "None"
  | some s => s

variable {M Tok Dev S E Ex Q D : Type}

/-- Result of `load_latest_checkpoints`: the `models` dict, the `arch` label,
and (instrumentation) the checkpoint paths passed to the model loader, in
call order. -/
structure Discovery (M : Type) where
  models : List (String × M)
  arch : Option String
  loadLog : List String
deriving DecidableEq

/-- Lines 95–100 of `src/main.py`: the full paths of a variant directory's
entries, sorted by modification time, newest first.  Python's
`sorted(..., key=os.path.getmtime, reverse=True)` is stable and orders by
descending key, which is exactly a stable merge sort with
`le a b := mtime b ≤ mtime a`. -/
def sortedCheckpoints (fs : FS) (model_path : String) : List String :=
  ((fs.entriesOf model_path).map (pathJoin model_path)).mergeSort
    (fun a b => decide (fs.mtime b ≤ fs.mtime a))

/-- One iteration of the discovery loop (lines 89–111), processing one entry
`model_dir` of the root directory. -/
def discoverStep (fs : FS) (load : String → M) (className : M → String)
    (path : String) (acc : Discovery M) (model_dir : String) : Discovery M :=
  let model_path := pathJoin path model_dir
  if model_path ∈ fs.dirs then
    match sortedCheckpoints fs model_path with
    | [] => acc
    | latest :: _ =>
      let model := load latest
      { models := dictInsert acc.models model_dir model
        arch := if pyFalsy acc.arch then some (className model) else acc.arch
        loadLog := acc.loadLog ++ [latest] }
  else acc

/-- `load_latest_checkpoints` (lines 67–113): fails with the
`FileNotFoundError` message if `path` is not an existing directory, else
folds the discovery loop over the root directory's entries. -/
def load_latest_checkpoints (fs : FS) (load : String → M) (className : M → String)
    (path : String) : Except String (Discovery M) :=
  if path ∈ fs.dirs then
    .ok ((fs.entriesOf path).foldl (discoverStep fs load className path)
      { models := [], arch := none, loadLog := [] })
  else
    .error ("The directory '" ++ path ++ "' does not exist or is not a directory.")

/-- The `if not arch: arch = model.__class__.__name__` update of lines
110–111, as a function of the previous value and the loaded model's class
name. -/
def archUpdate (a : Option String) (c : String) : Option String :=
  if pyFalsy a then some c else a

/-- What the `arch` label ends up as, as a function of the class names of the
loaded models in load order: `None` when nothing was loaded, otherwise the
first non-empty class name (Python truthiness skips empty strings), with the
empty string as fallback when every loaded class name is empty. -/
def archSpec : List String → Option String
  | [] => none
  | n :: ns => some (((n :: ns).find? (fun s => decide (s ≠ ""))).getD "")

/-- An Explainer instance, `explainer(model, tokenizer, device)` (line 33).
`id` is an allocation counter value instrumenting Python object identity:
every construction yields a fresh `id`. -/
structure Explainer (M Tok Dev : Type) where
  id : Nat
  kind : String
  model : M
  tokenizer : Tok
  device : Dev
deriving DecidableEq

/-- `Evaluator(explainer(...))` (line 33): wraps one Explainer instance. -/
structure Evaluator (M Tok Dev : Type) where
  explainer : Explainer M Tok Dev
deriving DecidableEq

/-- Lines 29–34 of `src/main.py`: the nested `evaluators_dict`, built by two
Python `dict`-assignment loops, threading the explainer allocation counter. -/
def buildEvaluators (explainers : List String) (models : List (String × M))
    (tok : Tok) (dev : Dev) : List (String × List (String × Evaluator M Tok Dev)) :=
  (explainers.foldl
    (fun acc exp =>
      let inner := models.foldl
        (fun (acc2 : List (String × Evaluator M Tok Dev) × Nat) nm =>
          (dictInsert acc2.1 nm.1 ⟨⟨acc2.2, exp, nm.2, tok, dev⟩⟩, acc2.2 + 1))
        ([], acc.2)
      (dictInsert acc.1 exp inner.1, inner.2))
    (([], 0) : List (String × List (String × Evaluator M Tok Dev)) × Nat)).1

/-- Closed form of the inner build loop for one explainer kind: the j-th
model's Evaluator holds the Explainer with allocation id `c + j`. -/
def innerC (kind : String) (tok : Tok) (dev : Dev) :
    Nat → List (String × M) → List (String × Evaluator M Tok Dev)
  | _, [] => []
  | c, nm :: ms => (nm.1, ⟨⟨c, kind, nm.2, tok, dev⟩⟩) :: innerC kind tok dev (c + 1) ms

/-- Closed form of the whole evaluator matrix (for distinct kind and variant
names): one inner dict per kind, ids allocated in blocks. -/
def buildC (models : List (String × M)) (tok : Tok) (dev : Dev) :
    Nat → List String → List (String × List (String × Evaluator M Tok Dev))
  | _, [] => []
  | c, k :: ks =>
    (k, innerC k tok dev c models) :: buildC models tok dev (c + models.length) ks

/-- The matplotlib current-figure state touched by lines 46–50. -/
structure PlotState (S : Type) where
  bars : List (Nat × S)
  xticks : List (Nat × String)
  xlabel : String
  ylabel : String
  title : String
deriving DecidableEq

/-- A fresh matplotlib figure (no artists, empty labels). -/
def emptyFig : PlotState S := ⟨[], [], "", "", ""⟩

/-- A chart written by `plt.savefig` (line 63): the explainer kind it was
produced for, the path written, and the snapshot of the current figure. -/
structure Chart (S : Type) where
  kind : String
  path : String
  fig : PlotState S
deriving DecidableEq

/-- Mutable state of the chart loop: the existing files (grown by
`plt.savefig`), the existing directories, the current matplotlib figure, and
the written charts in order. -/
structure RunState (S : Type) where
  files : List String
  dirs : List String
  fig : PlotState S
  charts : List (Chart S)
deriving DecidableEq

/-- Lines 38–43: the aggregation loop for one explainer kind, building the
`infidelities` dict.  `infid` models the collaborator call
`eval.evaluate_infidelity_mask_top_k(test_set, k=1, ptg=ptg)` (implemented in
`evaluations/evaluator.py`, outside `src/`); it may raise (`Except.error`),
in which case the partially built dict is discarded and the exception
propagates. -/
def aggregateKind (infid : Evaluator M Tok Dev → Except E S) :
    List (String × Evaluator M Tok Dev) → List (String × S) →
    Except E (List (String × S))
  | [], acc => .ok acc
  | (name, ev) :: rest, acc =>
    match infid ev with
    | .error e => .error e
    | .ok s => aggregateKind infid rest (dictInsert acc name s)

/-- The base save path of line 53: `results/figs/{exp}_topk_{arch}`. -/
def chartBasePath (exp archStr : String) : String :=
  "results/figs/" ++ exp ++ "_topk_" ++ archStr

/-- The chart title of line 50. -/
def chartTitle (exp archStr : String) : String :=
  "Infidelity of " ++ exp ++ " Explanations for Differently Pruned Versions of " ++ archStr

/-- Lines 45–64 for one explainer kind whose `infidelities` dict was built
successfully: mutate the current figure (`plt.bar` on line 46 appends bars to
the never-cleared figure, `plt.xticks`, the axis labels and the title replace
previous values), pick the collision-free file path, and save the chart. -/
def chartStep (archStr exp : String) (infidelities : List (String × S))
    (st : RunState S) : RunState S :=
  let fig : PlotState S :=
    { bars := st.fig.bars ++
        (List.range infidelities.length).zip (infidelities.map Prod.snd)
      xticks := (List.range infidelities.length).zip (infidelities.map Prod.fst)
      xlabel := "Model"
      ylabel := "Infidelity"
      title := chartTitle exp archStr }
  let file_path := uniqueChartPath st.files st.dirs (chartBasePath exp archStr) ".png"
  { files := st.files ++ [file_path]
    dirs := st.dirs
    fig := fig
    charts := st.charts ++ [⟨exp, file_path, fig⟩] }

/-- Lines 36–64: the per-explainer aggregation + chart loop.  Returns the
final state and `some e` when an evaluator raised `e` (the exception
propagates out of `eval_models` with the side effects performed so far
kept). -/
def runCharts (infid : Evaluator M Tok Dev → Except E S) (archStr : String) :
    List (String × List (String × Evaluator M Tok Dev)) → RunState S →
    RunState S × Option E
  | [], st => (st, none)
  | (exp, evaluators) :: rest, st =>
    match aggregateKind infid evaluators [] with
    | .error e => (st, some e)
    | .ok infidelities => runCharts infid archStr rest (chartStep archStr exp infidelities st)

/-- `eval_models` (lines 11–64): discovery, evaluator matrix construction,
aggregation and chart export.  A discovery failure propagates as
`Except.error`; a scoring failure is reported in the `Option E` component
together with the state at the time of the raise. -/
def eval_models (fs : FS) (load : String → M) (className : M → String)
    (path : String) (explainers : List String) (tok : Tok) (dev : Dev)
    (infid : Evaluator M Tok Dev → Except E S) :
    Except String (RunState S × Option E) :=
  match load_latest_checkpoints fs load className path with
  | .error m => .error m
  | .ok d =>
    .ok (runCharts infid (pyStrOfArch d.arch)
      (buildEvaluators explainers d.models tok dev)
      { files := fs.files, dirs := fs.dirs, fig := emptyFig, charts := [] })

/-- Modelled from the spec: the body of `evaluate_infidelity_mask_top_k`
lives in `evaluations/evaluator.py`, which is not under `src/`.  Following
§4.3 of the spec, it (a) draws a deterministic-fraction sample of the test
set (the `sample` collaborator, a function of the random seed, the test set
and the sampling fraction), (b)–(c) masks the top-`k` attributed features of
each sampled example per the explainer's own ranking and measures the model's
output shift against the explainer's predicted shift (collapsed into the
external metric's `discrepancy` contract), and (d) reduces the per-example
discrepancies to a single scalar (`reduce`). -/
def specInfidelity (sample : Nat → List Ex → Q → List Ex)
    (discrepancy : Explainer M Tok Dev → Nat → Ex → D) (reduce : List D → S)
    (seed : Nat) (testSet : List Ex) (k : Nat) (ptg : Q)
    (ev : Evaluator M Tok Dev) : S :=
  reduce ((sample seed testSet ptg).map (discrepancy ev.explainer k))

/-- Lines 36–43 applied to the whole evaluator matrix: one `infidelities`
dict per explainer kind (the chart-drawing side effects stripped). -/
def aggregateAll (infid : Evaluator M Tok Dev → Except E S)
    (matrix : List (String × List (String × Evaluator M Tok Dev))) :
    List (String × Except E (List (String × S))) :=
  matrix.map (fun p => (p.1, aggregateKind infid p.2 []))

/-- Concrete filesystem: one variant `base` with two checkpoints, `c2` newer
than `c1`. -/
def fsTwoCkpts : FS :=
  ⟨["./ckpts", "./ckpts/base"],
   fun p => if p = "./ckpts" then ["base"]
     else if p = "./ckpts/base" then ["c1", "c2"] else [],
   fun p => if p = "./ckpts/base/c2" then 2 else 1,
   []⟩

/-- Concrete filesystem: variants `a` and `b`, one checkpoint each. -/
def fsTwoVariants : FS :=
  ⟨["./ckpts", "./ckpts/a", "./ckpts/b"],
   fun p => if p = "./ckpts" then ["a", "b"]
     else if p = "./ckpts/a" then ["c1"]
     else if p = "./ckpts/b" then ["c2"] else [],
   fun _ => 0,
   []⟩

/-- Concrete filesystem: one variant directory `empty` with no entries. -/
def fsEmptyVariant : FS :=
  ⟨["./ckpts", "./ckpts/empty"],
   fun p => if p = "./ckpts" then ["empty"] else [],
   fun _ => 0,
   []⟩

/-- Concrete filesystem: a root directory with no entries at all. -/
def fsNoVariants : FS := ⟨["./ckpts"], fun _ => [], fun _ => 0, []⟩

/-- Concrete model loader: the model handle is its checkpoint path. -/
def loadId : String → String := fun p => p

/-- Concrete class-name resolver: every model is a `Bert`. -/
def cnBert : String → String := fun _ => "Bert"

/-- Concrete class-name resolver whose first loaded model (variant `a`) has
an *empty* class name, exercising the `if not arch:` truthiness test. -/
def cnEmptyA : String → String :=
  fun p => if p = "./ckpts/a/c1" then "" else "Bert"

theorem digitChar_toNat {d : Nat} (h : d < 10) : Char.toNat (digitChar d) = 48 + d := by
  interval_cases d <;> rfl

theorem unDigits_revDigits : ∀ (fuel n : Nat), n ≤ fuel → unDigits (revDigits fuel n) = n := by
  intro fuel
  induction fuel with
  | zero =>
    intro n h
    interval_cases n
    rfl
  | succ f ih =>
    intro n h
    by_cases h0 : n = 0
    · subst h0; rfl
    · have hdiv : n / 10 ≤ f := by
        have : n / 10 < n := Nat.div_lt_self (Nat.pos_of_ne_zero h0) (by omega)
        omega
      have hmod : n % 10 < 10 := Nat.mod_lt n (by omega)
      simp only [revDigits, h0, if_false, unDigits, ih _ hdiv, digitChar_toNat hmod]
      omega

theorem revDigits_ne_nil {n : Nat} (h : n ≠ 0) : revDigits n n ≠ [] := by
  rcases Nat.exists_eq_succ_of_ne_zero h with ⟨f, rfl⟩
  simp [revDigits, h]

theorem pyNatStr_data_ne_nil (n : Nat) : (pyNatStr n).data ≠ [] := by
  by_cases h : n = 0
  · subst h; simp [pyNatStr]
  · simp only [pyNatStr, h, if_false]
    intro hc
    exact revDigits_ne_nil h (by simpa using congrArg List.reverse hc)

theorem pyNatStr_inj : Function.Injective pyNatStr := by
  intro m n h
  have hm := unDigits_revDigits m m le_rfl
  have hn := unDigits_revDigits n n le_rfl
  have hdata := congrArg String.data h
  by_cases h0 : m = 0 <;> by_cases h1 : n = 0
  · omega
  · exfalso
    simp only [pyNatStr, h0, h1, if_true, if_false] at hdata
    have hrev : (revDigits n n).reverse = [Char.ofNat 48] := hdata.symm
    have : revDigits n n = [Char.ofNat 48] := by
      simpa using congrArg List.reverse hrev
    have : unDigits (revDigits n n) = 0 := by rw [this]; rfl
    omega
  · exfalso
    simp only [pyNatStr, h0, h1, if_true, if_false] at hdata
    have hrev : (revDigits m m).reverse = [Char.ofNat 48] := hdata
    have : revDigits m m = [Char.ofNat 48] := by
      simpa using congrArg List.reverse hrev
    have : unDigits (revDigits m m) = 0 := by rw [this]; rfl
    omega
  · simp only [pyNatStr, h0, h1, if_false] at hdata
    have : revDigits m m = revDigits n n := by
      have := congrArg List.reverse hdata
      simpa using this
    rw [← hm, ← hn, this]

theorem cand_inj (sp ext : String) : Function.Injective (cand sp ext) := by
  intro a b h
  match a, b with
  | 0, 0 => rfl
  | 0, j+1 =>
    exfalso
    have := congrArg (fun s => s.data.length) h
    simp only [cand, String.data_append, List.length_append] at this
    have h1 := pyNatStr_data_ne_nil (j+1)
    have h2 : 1 ≤ (pyNatStr (j+1)).data.length :=
      List.length_pos.mpr (pyNatStr_data_ne_nil (j+1))
    omega
  | j+1, 0 =>
    exfalso
    have := congrArg (fun s => s.data.length) h
    simp only [cand, String.data_append, List.length_append] at this
    have h2 : 1 ≤ (pyNatStr (j+1)).data.length :=
      List.length_pos.mpr (pyNatStr_data_ne_nil (j+1))
    omega
  | j+1, k+1 =>
    have hd := congrArg String.data h
    simp only [cand, String.data_append, List.append_assoc] at hd
    have hd2 := List.append_cancel_left hd
    have hd3 := List.append_cancel_left hd2
    have hd4 := List.append_cancel_right hd3
    have := pyNatStr_inj (String.ext hd4)
    omega

theorem probeAux_spec (files dirs : List String) (sp ext : String) :
    ∀ (fuel i : Nat),
      (∃ j, i ≤ j ∧ j < i + fuel ∧ pathExistsB files dirs (cand sp ext j) = false) →
      ∃ j, probeAux files dirs sp ext (cand sp ext i) (i + 1) fuel = cand sp ext j ∧
        pathExistsB files dirs (cand sp ext j) = false ∧ i ≤ j ∧
        ∀ t, i ≤ t → t < j → pathExistsB files dirs (cand sp ext t) = true := by
  intro fuel
  induction fuel with
  | zero =>
    intro i h
    rcases h with ⟨j, h1, h2, _⟩
    omega
  | succ f ih =>
    intro i h
    rcases h with ⟨j, hij, hjf, hfree⟩
    by_cases hex : pathExistsB files dirs (cand sp ext i) = true
    · have hstep : probeAux files dirs sp ext (cand sp ext i) (i + 1) (f + 1) =
          probeAux files dirs sp ext (cand sp ext (i + 1)) (i + 1 + 1) f := by
        simp only [probeAux, hex, if_true]
        rfl
      have hji : j ≠ i := by
        intro hc
        rw [hc] at hfree
        rw [hfree] at hex
        exact Bool.false_ne_true hex
      have := ih (i + 1) ⟨j, by omega, by omega, hfree⟩
      rcases this with ⟨j0, heq, hfree0, hle0, hmin0⟩
      refine ⟨j0, by rw [hstep]; exact heq, hfree0, by omega, ?_⟩
      intro t ht1 ht2
      by_cases hti : t = i
      · rw [hti]; exact hex
      · exact hmin0 t (by omega) ht2
    · have hex' : pathExistsB files dirs (cand sp ext i) = false :=
        Bool.eq_false_iff.mpr hex
      refine ⟨i, ?_, hex', le_rfl, by omega⟩
      simp only [probeAux, hex', if_false]
      exact if_neg (by simp [hex'])

theorem exists_free_cand (files dirs : List String) (sp ext : String) :
    ∃ j, j < files.length + dirs.length + 2 ∧
      pathExistsB files dirs (cand sp ext j) = false := by
  by_contra hc
  push_neg at hc
  have hall : ∀ j, j < files.length + dirs.length + 2 →
      cand sp ext j ∈ files ++ dirs := by
    intro j hj
    have := hc j hj
    have h2 : pathExistsB files dirs (cand sp ext j) = true := by
      cases h : pathExistsB files dirs (cand sp ext j)
      · exact absurd h this
      · rfl
    simp only [pathExistsB, Bool.or_eq_true, decide_eq_true_eq] at h2
    rcases h2 with h2 | h2
    · exact List.mem_append.mpr (Or.inl h2)
    · exact List.mem_append.mpr (Or.inr h2)
  set N := files.length + dirs.length + 2 with hN
  have hnodup : ((List.range N).map (cand sp ext)).Nodup :=
    (List.nodup_range N).map (cand_inj sp ext)
  have hsub : ((List.range N).map (cand sp ext)).toFinset ⊆ (files ++ dirs).toFinset := by
    intro x hx
    rw [List.mem_toFinset] at hx ⊢
    rcases List.mem_map.mp hx with ⟨j, hj, rfl⟩
    exact hall j (List.mem_range.mp hj)
  have hcard1 : ((List.range N).map (cand sp ext)).toFinset.card = N := by
    rw [List.toFinset_card_of_nodup hnodup]
    simp
  have hcard2 := Finset.card_le_card hsub
  have hcard3 := List.toFinset_card_le (files ++ dirs)
  rw [hcard1] at hcard2
  simp only [List.length_append] at hcard3
  omega

/-- Full characterisation of the save-path probe: the chosen path does not
exist, and it is the first candidate (base, `_1`, `_2`, ...) that does not. -/
theorem uniqueChartPath_spec (files dirs : List String) (sp ext : String) :
    pathExistsB files dirs (uniqueChartPath files dirs sp ext) = false ∧
    ∃ j, uniqueChartPath files dirs sp ext = cand sp ext j ∧
      ∀ t, t < j → pathExistsB files dirs (cand sp ext t) = true := by
  have hsuff := exists_free_cand files dirs sp ext
  rcases hsuff with ⟨j, hj, hfree⟩
  have h0 : (cand sp ext 0) = sp ++ ext := rfl
  have := probeAux_spec files dirs sp ext (files.length + dirs.length + 2) 0
    ⟨j, Nat.zero_le j, by omega, hfree⟩
  rcases this with ⟨j0, heq, hfree0, _, hmin0⟩
  have heq' : uniqueChartPath files dirs sp ext = cand sp ext j0 := by
    rw [uniqueChartPath, ← h0]
    exact heq
  refine ⟨by rw [heq']; exact hfree0, j0, heq', ?_⟩
  intro t ht
  exact hmin0 t (Nat.zero_le t) ht

theorem lookup_dictInsert_self {α : Type} (d : List (String × α)) (k : String) (v : α) :
    List.lookup k (dictInsert d k v) = some v := by
  induction d with
  | nil => simp [dictInsert, List.lookup]
  | cons p rest ih =>
    by_cases h : p.1 = k
    · simp [dictInsert, h, List.lookup]
    · simpa [dictInsert, h, List.lookup,
        beq_eq_false_iff_ne.mpr (Ne.symm h)] using ih

theorem lookup_dictInsert_ne {α : Type} (d : List (String × α)) {k k' : String}
    (v : α) (h : k' ≠ k) : List.lookup k' (dictInsert d k v) = List.lookup k' d := by
  induction d with
  | nil => simp [dictInsert, List.lookup, beq_eq_false_iff_ne.mpr h]
  | cons p rest ih =>
    by_cases hp : p.1 = k
    · subst hp
      simp [dictInsert, List.lookup, beq_eq_false_iff_ne.mpr h]
    · by_cases hq : k' = p.1
      · simp [dictInsert, hp, List.lookup, hq]
      · simp [dictInsert, hp, List.lookup,
          beq_eq_false_iff_ne.mpr hq, ih]

/-- The head of a non-empty variant directory's sorted checkpoint list is an
entry of maximal modification time. -/
theorem sortedCheckpoints_head_max (fs : FS) (mp : String)
    (h : fs.entriesOf mp ≠ []) :
    ∃ latest rest, sortedCheckpoints fs mp = latest :: rest ∧
      latest ∈ (fs.entriesOf mp).map (pathJoin mp) ∧
      ∀ c ∈ (fs.entriesOf mp).map (pathJoin mp), fs.mtime c ≤ fs.mtime latest := by
  set L := (fs.entriesOf mp).map (pathJoin mp) with hL
  have hperm := List.mergeSort_perm L (fun a b => decide (fs.mtime b ≤ fs.mtime a))
  have hLne : L ≠ [] := by
    intro hc
    exact h (List.map_eq_nil_iff.mp (hL ▸ hc))
  have hne : sortedCheckpoints fs mp ≠ [] := by
    intro hc
    have h2 : ([] : List String).Perm L := by
      rw [← hc]
      exact hperm
    exact hLne h2.symm.eq_nil
  rcases hs : sortedCheckpoints fs mp with _ | ⟨latest, rest⟩
  · exact absurd hs hne
  · have hpair := @List.sorted_mergeSort String
      (fun a b => decide (fs.mtime b ≤ fs.mtime a))
      (fun a b c hab hbc => by
        simp only [decide_eq_true_eq] at hab hbc ⊢
        omega)
      (fun a b => by
        simp only [Bool.or_eq_true, decide_eq_true_eq]
        omega)
      L
    rw [show L.mergeSort (fun a b => decide (fs.mtime b ≤ fs.mtime a)) =
        sortedCheckpoints fs mp from rfl, hs] at hpair
    have hperm' : (latest :: rest).Perm L := by
      rw [← hs]
      exact hperm
    refine ⟨latest, rest, rfl, hperm'.mem_iff.mp (List.mem_cons_self _ _), ?_⟩
    intro c hc
    have hc' : c ∈ latest :: rest := hperm'.mem_iff.mpr hc
    rcases List.mem_cons.mp hc' with rfl | hc''
    · exact le_rfl
    · have := (List.pairwise_cons.mp hpair).1 c hc''
      simpa using this

theorem discoverStep_lookup_ne (fs : FS) (load : String → M) (cn : M → String)
    (path : String) (acc : Discovery M) {e d : String} (h : d ≠ e) :
    List.lookup d (discoverStep fs load cn path acc e).models =
      List.lookup d acc.models := by
  simp only [discoverStep]
  split
  · split
    · rfl
    · exact lookup_dictInsert_ne _ _ h
  · rfl

theorem discoverStep_lookup_self (fs : FS) (load : String → M) (cn : M → String)
    (path : String) (acc : Discovery M) {d latest : String} {rest : List String}
    (hd : pathJoin path d ∈ fs.dirs)
    (hs : sortedCheckpoints fs (pathJoin path d) = latest :: rest) :
    List.lookup d (discoverStep fs load cn path acc d).models =
      some (load latest) := by
  simp only [discoverStep, hd, if_true, hs]
  exact lookup_dictInsert_self _ _ _

theorem discoverStep_skip (fs : FS) (load : String → M) (cn : M → String)
    (path : String) (acc : Discovery M) {e : String}
    (h : pathJoin path e ∉ fs.dirs ∨ sortedCheckpoints fs (pathJoin path e) = []) :
    discoverStep fs load cn path acc e = acc := by
  rcases h with h | h
  · simp only [discoverStep, h, if_false]
  · simp only [discoverStep, h]
    split
    · rfl
    · rfl

theorem foldl_discover_lookup_preserve (fs : FS) (load : String → M)
    (cn : M → String) (path : String) {d : String} :
    ∀ (es : List String) (acc : Discovery M), d ∉ es →
      List.lookup d (es.foldl (discoverStep fs load cn path) acc).models =
        List.lookup d acc.models := by
  intro es
  induction es with
  | nil => intro acc _; rfl
  | cons e es ih =>
    intro acc hmem
    have h1 : d ≠ e := fun hc => hmem (hc ▸ List.mem_cons_self _ _)
    have h2 : d ∉ es := fun hc => hmem (List.mem_cons_of_mem _ hc)
    rw [List.foldl_cons, ih _ h2, discoverStep_lookup_ne fs load cn path acc h1]

theorem foldl_discover_lookup_latest (fs : FS) (load : String → M)
    (cn : M → String) (path : String) {d latest : String} {rest : List String}
    (hd : pathJoin path d ∈ fs.dirs)
    (hs : sortedCheckpoints fs (pathJoin path d) = latest :: rest) :
    ∀ (es : List String) (acc : Discovery M), d ∈ es →
      List.lookup d (es.foldl (discoverStep fs load cn path) acc).models =
        some (load latest) := by
  intro es
  induction es with
  | nil => intro acc h; exact absurd h (List.not_mem_nil d)
  | cons e es ih =>
    intro acc hmem
    by_cases h2 : d ∈ es
    · rw [List.foldl_cons]
      exact ih _ h2
    · have h1 : d = e := by
        rcases List.mem_cons.mp hmem with h | h
        · exact h
        · exact absurd h h2
      subst h1
      rw [List.foldl_cons, foldl_discover_lookup_preserve fs load cn path es _ h2,
        discoverStep_lookup_self fs load cn path acc hd hs]

theorem foldl_discover_lookup_skip (fs : FS) (load : String → M)
    (cn : M → String) (path : String) {d : String}
    (hskip : pathJoin path d ∉ fs.dirs ∨ sortedCheckpoints fs (pathJoin path d) = []) :
    ∀ (es : List String) (acc : Discovery M),
      List.lookup d (es.foldl (discoverStep fs load cn path) acc).models =
        List.lookup d acc.models := by
  intro es
  induction es with
  | nil => intro acc; rfl
  | cons e es ih =>
    intro acc
    rw [List.foldl_cons, ih]
    by_cases h1 : d = e
    · subst h1
      rw [discoverStep_skip fs load cn path acc hskip]
    · exact discoverStep_lookup_ne fs load cn path acc h1

theorem foldl_archUpdate_not_falsy {a : Option String} (h : pyFalsy a = false) :
    ∀ names : List String, names.foldl archUpdate a = a := by
  intro names
  induction names with
  | nil => rfl
  | cons c cs ih =>
    rw [List.foldl_cons, show archUpdate a c = a from by simp [archUpdate, h], ih]

theorem foldl_archUpdate_some_empty :
    ∀ names : List String, names.foldl archUpdate (some "") =
      some ((names.find? (fun s => decide (s ≠ ""))).getD "") := by
  intro names
  induction names with
  | nil => rfl
  | cons c cs ih =>
    have hstep : archUpdate (some "") c = some c := by simp [archUpdate, pyFalsy]
    by_cases hc : c = ""
    · subst hc
      rw [List.foldl_cons, hstep, ih]
      simp [List.find?_cons]
    · rw [List.foldl_cons, hstep,
        foldl_archUpdate_not_falsy (by simp [pyFalsy, hc]) cs]
      simp [List.find?_cons, hc]

theorem foldl_archUpdate_none (names : List String) :
    names.foldl archUpdate none = archSpec names := by
  cases names with
  | nil => rfl
  | cons c cs =>
    have hstep : archUpdate none c = some c := rfl
    by_cases hc : c = ""
    · subst hc
      rw [List.foldl_cons, hstep, foldl_archUpdate_some_empty cs, archSpec]
      simp [List.find?_cons]
    · rw [List.foldl_cons, hstep,
        foldl_archUpdate_not_falsy (by simp [pyFalsy, hc]) cs, archSpec]
      simp [List.find?_cons, hc]

theorem discoverStep_arch_log (fs : FS) (load : String → M) (cn : M → String)
    (path : String) (acc : Discovery M) (e : String) :
    ∃ t : List String,
      (discoverStep fs load cn path acc e).loadLog = acc.loadLog ++ t ∧
      (discoverStep fs load cn path acc e).arch =
        (t.map (fun p => cn (load p))).foldl archUpdate acc.arch := by
  simp only [discoverStep]
  split
  · split
    · exact ⟨[], by simp⟩
    · rename_i latest rest heq
      exact ⟨[latest], by simp, by simp [archUpdate]⟩
  · exact ⟨[], by simp⟩

theorem foldl_discover_arch_log (fs : FS) (load : String → M) (cn : M → String)
    (path : String) :
    ∀ (es : List String) (acc : Discovery M),
      ∃ t : List String,
        (es.foldl (discoverStep fs load cn path) acc).loadLog = acc.loadLog ++ t ∧
        (es.foldl (discoverStep fs load cn path) acc).arch =
          (t.map (fun p => cn (load p))).foldl archUpdate acc.arch := by
  intro es
  induction es with
  | nil => intro acc; exact ⟨[], by simp, rfl⟩
  | cons e es ih =>
    intro acc
    rcases discoverStep_arch_log fs load cn path acc e with ⟨t1, hl1, ha1⟩
    rcases ih (discoverStep fs load cn path acc e) with ⟨t2, hl2, ha2⟩
    refine ⟨t1 ++ t2, ?_, ?_⟩
    · rw [List.foldl_cons, hl2, hl1, List.append_assoc]
    · rw [List.foldl_cons, ha2, ha1, List.map_append, List.foldl_append]

theorem dictInsert_not_mem {α : Type} {d : List (String × α)} {k : String}
    (v : α) (h : k ∉ d.map Prod.fst) : dictInsert d k v = d ++ [(k, v)] := by
  induction d with
  | nil => rfl
  | cons p rest ih =>
    have h1 : p.1 ≠ k := fun hc => h (by simp [hc])
    have h2 : k ∉ rest.map Prod.fst := fun hc => h (by simp [hc])
    simp [dictInsert, h1, ih h2]

theorem buildInner_foldl (kind : String) (tok : Tok) (dev : Dev) :
    ∀ (ms : List (String × M)) (acc : List (String × Evaluator M Tok Dev)) (c : Nat),
      (ms.map Prod.fst).Nodup →
      (∀ x ∈ ms.map Prod.fst, x ∉ acc.map Prod.fst) →
      ms.foldl (fun (acc2 : List (String × Evaluator M Tok Dev) × Nat) nm =>
          (dictInsert acc2.1 nm.1 ⟨⟨acc2.2, kind, nm.2, tok, dev⟩⟩, acc2.2 + 1))
        (acc, c) = (acc ++ innerC kind tok dev c ms, c + ms.length) := by
  intro ms
  induction ms with
  | nil => intro acc c _ _; simp [innerC]
  | cons nm ms ih =>
    intro acc c hnodup hfresh
    have hk : nm.1 ∉ acc.map Prod.fst := hfresh nm.1 (by simp)
    rw [List.map_cons] at hnodup
    have hnodup' : (ms.map Prod.fst).Nodup := (List.nodup_cons.mp hnodup).2
    have hhead : nm.1 ∉ ms.map Prod.fst := (List.nodup_cons.mp hnodup).1
    have hfresh' : ∀ x ∈ ms.map Prod.fst,
        x ∉ (acc ++ [(nm.1, (⟨⟨c, kind, nm.2, tok, dev⟩⟩ : Evaluator M Tok Dev))]).map Prod.fst := by
      intro x hx
      simp only [List.map_append, List.mem_append, List.map_cons, List.map_nil,
        List.mem_cons, List.not_mem_nil]
      rintro (h | h)
      · exact hfresh x (by simp [hx]) h
      · rcases h with h | h
        · exact hhead (h ▸ hx)
        · exact h
    rw [List.foldl_cons]
    rw [show (dictInsert acc nm.1 (⟨⟨c, kind, nm.2, tok, dev⟩⟩ : Evaluator M Tok Dev), c + 1) =
        (acc ++ [(nm.1, (⟨⟨c, kind, nm.2, tok, dev⟩⟩ : Evaluator M Tok Dev))], c + 1) from by
      rw [dictInsert_not_mem _ hk]]
    rw [ih _ (c + 1) hnodup' hfresh']
    simp [innerC, List.append_assoc]
    omega

theorem buildOuter_foldl (models : List (String × M)) (tok : Tok) (dev : Dev)
    (hm : (models.map Prod.fst).Nodup) :
    ∀ (ks : List String) (acc : List (String × List (String × Evaluator M Tok Dev))) (c : Nat),
      ks.Nodup → (∀ k ∈ ks, k ∉ acc.map Prod.fst) →
      ks.foldl
        (fun acc exp =>
          let inner := models.foldl
            (fun (acc2 : List (String × Evaluator M Tok Dev) × Nat) nm =>
              (dictInsert acc2.1 nm.1 ⟨⟨acc2.2, exp, nm.2, tok, dev⟩⟩, acc2.2 + 1))
            ([], acc.2)
          (dictInsert acc.1 exp inner.1, inner.2))
        (acc, c) = (acc ++ buildC models tok dev c ks, c + ks.length * models.length) := by
  intro ks
  induction ks with
  | nil => intro acc c _ _; simp [buildC]
  | cons k ks ih =>
    intro acc c hnodup hfresh
    have hk : k ∉ acc.map Prod.fst := hfresh k (by simp)
    have hnodup' : ks.Nodup := (List.nodup_cons.mp hnodup).2
    have hhead : k ∉ ks := (List.nodup_cons.mp hnodup).1
    rw [List.foldl_cons]
    have hinner := buildInner_foldl k tok dev models [] c hm (by simp)
    simp only [hinner, List.nil_append]
    have hfresh' : ∀ x ∈ ks,
        x ∉ (acc ++ [(k, innerC k tok dev c models)]).map Prod.fst := by
      intro x hx
      simp only [List.map_append, List.mem_append, List.map_cons, List.map_nil,
        List.mem_cons, List.not_mem_nil]
      rintro (h | h)
      · exact hfresh x (List.mem_cons_of_mem _ hx) h
      · rcases h with h | h
        · exact hhead (h ▸ hx)
        · exact h
    rw [show dictInsert acc k ((innerC k tok dev c models : List (String × Evaluator M Tok Dev))) =
        acc ++ [(k, innerC k tok dev c models)] from dictInsert_not_mem _ hk]
    rw [ih _ (c + models.length) hnodup' hfresh']
    simp only [buildC, List.append_assoc, List.singleton_append, List.length_cons,
      Prod.mk.injEq]
    exact ⟨trivial, by ring⟩

theorem buildEvaluators_eq_buildC (explainers : List String)
    (models : List (String × M)) (tok : Tok) (dev : Dev)
    (hk : explainers.Nodup) (hm : (models.map Prod.fst).Nodup) :
    buildEvaluators explainers models tok dev = buildC models tok dev 0 explainers := by
  unfold buildEvaluators
  rw [buildOuter_foldl models tok dev hm explainers [] 0 hk (by simp)]
  simp

theorem innerC_keys (kind : String) (tok : Tok) (dev : Dev) :
    ∀ (c : Nat) (ms : List (String × M)),
      (innerC kind tok dev c ms).map Prod.fst = ms.map Prod.fst := by
  intro c ms
  induction ms generalizing c with
  | nil => rfl
  | cons nm ms ih => simp [innerC, ih]

theorem innerC_length (kind : String) (tok : Tok) (dev : Dev) :
    ∀ (c : Nat) (ms : List (String × M)),
      (innerC kind tok dev c ms).length = ms.length := by
  intro c ms
  induction ms generalizing c with
  | nil => rfl
  | cons nm ms ih => simp [innerC, ih]

theorem buildC_keys (models : List (String × M)) (tok : Tok) (dev : Dev) :
    ∀ (c : Nat) (ks : List String),
      (buildC models tok dev c ks).map Prod.fst = ks := by
  intro c ks
  induction ks generalizing c with
  | nil => rfl
  | cons k ks ih => simp [buildC, ih]

theorem innerC_mem (kind : String) (tok : Tok) (dev : Dev) :
    ∀ (c : Nat) (ms : List (String × M)) (q : String × Evaluator M Tok Dev),
      q ∈ innerC kind tok dev c ms →
      q.2.explainer.kind = kind ∧ (q.1, q.2.explainer.model) ∈ ms ∧
      q.2.explainer.tokenizer = tok ∧ q.2.explainer.device = dev := by
  intro c ms
  induction ms generalizing c with
  | nil => intro q h; exact absurd h (List.not_mem_nil q)
  | cons nm ms ih =>
    intro q h
    rcases List.mem_cons.mp h with h | h
    · subst h
      exact ⟨rfl, by simp, rfl, rfl⟩
    · rcases ih (c + 1) q h with ⟨h1, h2, h3, h4⟩
      exact ⟨h1, List.mem_cons_of_mem _ h2, h3, h4⟩

theorem buildC_mem (models : List (String × M)) (tok : Tok) (dev : Dev) :
    ∀ (c : Nat) (ks : List String) (p : String × List (String × Evaluator M Tok Dev)),
      p ∈ buildC models tok dev c ks →
      ∃ c', p.2 = innerC p.1 tok dev c' models := by
  intro c ks
  induction ks generalizing c with
  | nil => intro p h; exact absurd h (List.not_mem_nil p)
  | cons k ks ih =>
    intro p h
    rcases List.mem_cons.mp h with h | h
    · subst h
      exact ⟨c, rfl⟩
    · exact ih (c + models.length) p h

theorem innerC_ids (kind : String) (tok : Tok) (dev : Dev) :
    ∀ (c : Nat) (ms : List (String × M)),
      (innerC kind tok dev c ms).map (fun q => q.2.explainer.id) =
        List.range' c ms.length := by
  intro c ms
  induction ms generalizing c with
  | nil => rfl
  | cons nm ms ih => simp [innerC, ih, List.range']

theorem buildC_flat_ids (models : List (String × M)) (tok : Tok) (dev : Dev) :
    ∀ (c : Nat) (ks : List String),
      ((buildC models tok dev c ks).map
        (fun p => p.2.map (fun q => q.2.explainer.id))).flatten =
        List.range' c (ks.length * models.length) := by
  intro c ks
  induction ks generalizing c with
  | nil => simp [buildC]
  | cons k ks ih =>
    simp only [buildC, List.map_cons, List.flatten_cons, ih,
      innerC_ids k tok dev c models]
    have := List.range'_append c models.length (ks.length * models.length) 1
    simp only [Nat.one_mul] at this
    rw [this]
    congr 1
    simp only [List.length_cons]
    ring

theorem chartBasePath_inj {k k' a : String}
    (h : chartBasePath k a ++ ".png" = chartBasePath k' a ++ ".png") : k = k' := by
  have hd := congrArg String.data h
  simp only [chartBasePath, String.data_append, List.append_assoc] at hd
  have hd2 := List.append_cancel_left hd
  have hd3 := List.append_cancel_right hd2
  exact String.ext hd3

theorem chartStep_charts (archStr exp : String) (infidelities : List (String × S))
    (st : RunState S) :
    ∃ c : Chart S, (chartStep archStr exp infidelities st).charts = st.charts ++ [c] ∧
      c.kind = exp ∧
      c.path = uniqueChartPath st.files st.dirs (chartBasePath exp archStr) ".png" := by
  exact ⟨_, rfl, rfl, rfl⟩

theorem chartStep_files (archStr exp : String) (infidelities : List (String × S))
    (st : RunState S) :
    (chartStep archStr exp infidelities st).files =
      st.files ++ [uniqueChartPath st.files st.dirs (chartBasePath exp archStr) ".png"] := rfl

theorem chartStep_dirs (archStr exp : String) (infidelities : List (String × S))
    (st : RunState S) : (chartStep archStr exp infidelities st).dirs = st.dirs := rfl

/-- Exceptions propagate: if the aggregation for an explainer kind present in
the evaluator dict raises, the whole chart loop ends in that (or an earlier)
error, and no chart for that kind is ever written. -/
theorem runCharts_error (infid : Evaluator M Tok Dev → Except E S) (archStr : String) :
    ∀ (dict : List (String × List (String × Evaluator M Tok Dev))) (st : RunState S)
      (exp : String) (evs : List (String × Evaluator M Tok Dev)) (err : E),
      (dict.map Prod.fst).Nodup →
      (exp, evs) ∈ dict →
      aggregateKind infid evs [] = .error err →
      (runCharts infid archStr dict st).2.isSome = true ∧
      ∀ c ∈ (runCharts infid archStr dict st).1.charts,
        c.kind = exp → c ∈ st.charts := by
  intro dict
  induction dict with
  | nil =>
    intro st exp evs err _ hmem _
    exact absurd hmem (List.not_mem_nil _)
  | cons p rest ih =>
    intro st exp evs err hnodup hmem hagg
    obtain ⟨k0, evs0⟩ := p
    rw [List.map_cons] at hnodup
    have hnodup' := (List.nodup_cons.mp hnodup).2
    have hhead := (List.nodup_cons.mp hnodup).1
    rcases List.mem_cons.mp hmem with heq | hmem'
    · have hk : exp = k0 := congrArg Prod.fst heq
      have he : evs = evs0 := congrArg Prod.snd heq
      subst hk
      subst he
      simp only [runCharts, hagg]
      exact ⟨rfl, fun c hc _ => hc⟩
    · have hexp_ne : exp ≠ k0 := by
        intro hc
        apply hhead
        subst hc
        exact List.mem_map.mpr ⟨(exp, evs), hmem', rfl⟩
      cases hcase : aggregateKind infid evs0 [] with
      | error e0 =>
        simp only [runCharts, hcase]
        exact ⟨rfl, fun c hc _ => hc⟩
      | ok infids =>
        simp only [runCharts, hcase]
        refine ⟨(ih _ exp evs err hnodup' hmem' hagg).1, ?_⟩
        intro c hc hk
        have h2 := (ih _ exp evs err hnodup' hmem' hagg).2 c hc hk
        rcases chartStep_charts archStr k0 infids st with ⟨c0, hcs, hck, _⟩
        rw [hcs] at h2
        rcases List.mem_append.mp h2 with h3 | h3
        · exact h3
        · exfalso
          have hc0 : c = c0 := List.mem_singleton.mp h3
        -- c's kind is exp but the freshly written chart is for k0 ≠ exp
          rw [hc0, hck] at hk
          exact hexp_ne hk.symm

/-- Every chart written by the loop goes to a then-nonexistent path: the
written charts extend the previous ones, the file set grows by exactly the
written paths, no written path existed before the loop, and no two written
paths coincide. -/
theorem runCharts_fresh (infid : Evaluator M Tok Dev → Except E S) (archStr : String) :
    ∀ (dict : List (String × List (String × Evaluator M Tok Dev))) (st : RunState S),
      ∃ new : List (Chart S),
        (runCharts infid archStr dict st).1.charts = st.charts ++ new ∧
        (runCharts infid archStr dict st).1.files = st.files ++ new.map (fun c => c.path) ∧
        (runCharts infid archStr dict st).1.dirs = st.dirs ∧
        (∀ c ∈ new, c.path ∉ st.files ∧ c.path ∉ st.dirs) ∧
        (new.map (fun c => c.path)).Nodup := by
  intro dict
  induction dict with
  | nil =>
    intro st
    exact ⟨[], by simp [runCharts], by simp [runCharts], by simp [runCharts],
      by simp, by simp⟩
  | cons p rest ih =>
    intro st
    obtain ⟨k0, evs0⟩ := p
    cases hcase : aggregateKind infid evs0 [] with
    | error e0 =>
      refine ⟨[], ?_, ?_, ?_, by simp, by simp⟩ <;> simp [runCharts, hcase]
    | ok infids =>
      rcases ih (chartStep archStr k0 infids st) with ⟨new, h1, h2, h3, h4, h5⟩
      rcases chartStep_charts archStr k0 infids st with ⟨c0, hcs, _, hcp⟩
      have hfree := (uniqueChartPath_spec st.files st.dirs (chartBasePath k0 archStr) ".png").1
      simp only [pathExistsB, Bool.or_eq_false_iff, decide_eq_false_iff_not] at hfree
      have hc0files : c0.path ∉ st.files := by rw [hcp]; exact hfree.1
      have hc0dirs : c0.path ∉ st.dirs := by rw [hcp]; exact hfree.2
      refine ⟨c0 :: new, ?_, ?_, ?_, ?_, ?_⟩
      · simp only [runCharts, hcase]
        rw [h1, hcs, List.append_assoc]
        rfl
      · simp only [runCharts, hcase]
        rw [h2, chartStep_files, List.map_cons, ← hcp, List.append_assoc]
        rfl
      · simp only [runCharts, hcase]
        rw [h3, chartStep_dirs]
      · intro c hc
        rcases List.mem_cons.mp hc with rfl | hc'
        · exact ⟨hc0files, hc0dirs⟩
        · have := h4 c hc'
          rw [chartStep_files, chartStep_dirs] at this
          exact ⟨fun hm => this.1 (by simp [hm]), this.2⟩
      · rw [List.map_cons, List.nodup_cons]
        refine ⟨?_, h5⟩
        intro hmem
        rcases List.mem_map.mp hmem with ⟨c, hc, hpath⟩
        have := (h4 c hc).1
        rw [chartStep_files] at this
        exact this (by simp [hpath, hcp])

theorem uniqueChartPath_base {files dirs : List String} {sp ext : String}
    (h : pathExistsB files dirs (sp ++ ext) = false) :
    uniqueChartPath files dirs sp ext = sp ++ ext := by
  obtain ⟨hfree, j, heq, hmin⟩ := uniqueChartPath_spec files dirs sp ext
  cases j with
  | zero => exact heq
  | succ j =>
    exfalso
    have := hmin 0 (Nat.succ_pos j)
    rw [show cand sp ext 0 = sp ++ ext from rfl, h] at this
    exact Bool.false_ne_true this

theorem sortedCheckpoints_nil (fs : FS) (mp : String) (h : fs.entriesOf mp = []) :
    sortedCheckpoints fs mp = [] := by
  simp [sortedCheckpoints, h]

theorem foldl_discover_id (fs : FS) (load : String → M) (cn : M → String)
    (path : String) :
    ∀ (es : List String) (acc : Discovery M),
      (∀ e ∈ es, pathJoin path e ∉ fs.dirs ∨
        sortedCheckpoints fs (pathJoin path e) = []) →
      es.foldl (discoverStep fs load cn path) acc = acc := by
  intro es
  induction es with
  | nil => intro acc _; rfl
  | cons e es ih =>
    intro acc h
    rw [List.foldl_cons, discoverStep_skip fs load cn path acc (h e (by simp)),
      ih acc (fun x hx => h x (List.mem_cons_of_mem _ hx))]

/-- When no variant subdirectory has any entry, discovery succeeds with an
empty model dict, a `None` architecture, and no loader call. -/
theorem discover_empty (fs : FS) (load : String → M) (cn : M → String)
    (path : String) (hdir : path ∈ fs.dirs)
    (hempty : ∀ e ∈ fs.entriesOf path, pathJoin path e ∈ fs.dirs →
      fs.entriesOf (pathJoin path e) = []) :
    load_latest_checkpoints fs load cn path = .ok ⟨[], none, []⟩ := by
  rw [load_latest_checkpoints, if_pos hdir]
  rw [foldl_discover_id fs load cn path (fs.entriesOf path) _ ?_]
  intro e he
  by_cases hd : pathJoin path e ∈ fs.dirs
  · exact Or.inr (sortedCheckpoints_nil fs _ (hempty e he hd))
  · exact Or.inl hd

theorem buildC_nil_models (tok : Tok) (dev : Dev) :
    ∀ (c : Nat) (ks : List String),
      buildC ([] : List (String × M)) tok dev c ks = ks.map (fun k => (k, [])) := by
  intro c ks
  induction ks generalizing c with
  | nil => rfl
  | cons k ks ih => simp [buildC, innerC, ih]

/-- Chart loop over an all-empty evaluator matrix: it does not fail and
writes, for every kind, one zero-bar chart at the base path. -/
theorem runCharts_empty (infid : Evaluator M Tok Dev → Except E S) (archStr : String) :
    ∀ (ks : List String) (st : RunState S),
      st.fig.bars = [] →
      ks.Nodup →
      (∀ k ∈ ks, (chartBasePath k archStr ++ ".png") ∉ st.files ∧
        (chartBasePath k archStr ++ ".png") ∉ st.dirs) →
      (runCharts infid archStr (ks.map (fun k => (k, []))) st).2 = none ∧
      (runCharts infid archStr (ks.map (fun k => (k, []))) st).1.charts =
        st.charts ++ ks.map (fun k =>
          ⟨k, chartBasePath k archStr ++ ".png",
            ⟨[], [], "Model", "Infidelity", chartTitle k archStr⟩⟩) := by
  intro ks
  induction ks with
  | nil =>
    intro st _ _ _
    exact ⟨rfl, by simp [runCharts]⟩
  | cons k ks ih =>
    intro st hbars hnodup hfresh
    have hnodup' : ks.Nodup := (List.nodup_cons.mp hnodup).2
    have hhead : k ∉ ks := (List.nodup_cons.mp hnodup).1
    have hkfresh := hfresh k (by simp)
    have hbase : uniqueChartPath st.files st.dirs (chartBasePath k archStr) ".png" =
        chartBasePath k archStr ++ ".png" := by
      apply uniqueChartPath_base
      simp only [pathExistsB, Bool.or_eq_false_iff, decide_eq_false_iff_not]
      exact hkfresh
    have hagg : aggregateKind infid ([] : List (String × Evaluator M Tok Dev)) [] =
        .ok ([] : List (String × S)) := rfl
    have hstep : chartStep archStr k ([] : List (String × S)) st =
        { files := st.files ++ [chartBasePath k archStr ++ ".png"]
          dirs := st.dirs
          fig := ⟨[], [], "Model", "Infidelity", chartTitle k archStr⟩
          charts := st.charts ++ [⟨k, chartBasePath k archStr ++ ".png",
            ⟨[], [], "Model", "Infidelity", chartTitle k archStr⟩⟩] } := by
      simp [chartStep, hbase, hbars]
    have hfresh' : ∀ k' ∈ ks,
        (chartBasePath k' archStr ++ ".png") ∉
          (st.files ++ [chartBasePath k archStr ++ ".png"]) ∧
        (chartBasePath k' archStr ++ ".png") ∉ st.dirs := by
      intro k' hk'
      have h1 := hfresh k' (List.mem_cons_of_mem _ hk')
      refine ⟨?_, h1.2⟩
      intro hmem
      rcases List.mem_append.mp hmem with h2 | h2
      · exact h1.1 h2
      · have : k' = k := chartBasePath_inj (List.mem_singleton.mp h2)
        exact hhead (this ▸ hk')
    have hrec := ih { files := st.files ++ [chartBasePath k archStr ++ ".png"]
                      dirs := st.dirs
                      fig := ⟨[], [], "Model", "Infidelity", chartTitle k archStr⟩
                      charts := st.charts ++ [⟨k, chartBasePath k archStr ++ ".png",
                        ⟨[], [], "Model", "Infidelity", chartTitle k archStr⟩⟩] }
      rfl hnodup' hfresh'
    refine ⟨?_, ?_⟩
    · simp only [List.map_cons, runCharts, hagg, hstep]
      exact hrec.1
    · simp only [List.map_cons, runCharts, hagg, hstep]
      rw [hrec.2]
      simp [List.append_assoc]

theorem buildC_total_length (models : List (String × M)) (tok : Tok) (dev : Dev) :
    ∀ (c : Nat) (ks : List String),
      ((buildC models tok dev c ks).map Prod.snd).flatten.length =
        ks.length * models.length := by
  intro c ks
  induction ks generalizing c with
  | nil => simp [buildC]
  | cons k ks ih =>
    simp only [buildC, List.map_cons, List.flatten_cons, List.length_append,
      innerC_length, ih, List.length_cons]
    ring

/-- C1: for every variant subdirectory of the root path that has at least one
entry, `load_latest_checkpoints` stores under that variant's name the model
loaded from an entry of maximum modification time among the subdirectory's
entries — never from an older entry. -/
theorem claim_C1 (fs : FS) (load : String → M) (cn : M → String)
    (path : String) (D : Discovery M) (d : String)
    (hok : load_latest_checkpoints fs load cn path = .ok D)
    (hmem : d ∈ fs.entriesOf path)
    (hdir : pathJoin path d ∈ fs.dirs)
    (hne : fs.entriesOf (pathJoin path d) ≠ []) :
    ∃ latest,
      latest ∈ (fs.entriesOf (pathJoin path d)).map (pathJoin (pathJoin path d)) ∧
      (∀ c ∈ (fs.entriesOf (pathJoin path d)).map (pathJoin (pathJoin path d)),
        fs.mtime c ≤ fs.mtime latest) ∧
      List.lookup d D.models = some (load latest) := by
  rcases sortedCheckpoints_head_max fs (pathJoin path d) hne with
    ⟨latest, rest, hs, hmem2, hmax⟩
  refine ⟨latest, hmem2, hmax, ?_⟩
  rw [load_latest_checkpoints] at hok
  by_cases hroot : path ∈ fs.dirs
  · rw [if_pos hroot] at hok
    have hD : (fs.entriesOf path).foldl (discoverStep fs load cn path)
        ⟨[], none, []⟩ = D := by
      injection hok
    rw [← hD]
    exact foldl_discover_lookup_latest fs load cn path hdir hs (fs.entriesOf path) _ hmem
  · rw [if_neg hroot] at hok
    exact absurd hok (by simp)

/-- C3: on a path that is not an existing directory, discovery fails with the
`FileNotFoundError` whose message names the path — for every possible model
loader; it never returns a model collection. -/
theorem claim_C3 (fs : FS) (load : String → M) (cn : M → String) (path : String)
    (h : path ∉ fs.dirs) :
    load_latest_checkpoints fs load cn path =
      .error ("The directory '" ++ path ++
        "' does not exist or is not a directory.") ∧
    ∀ D : Discovery M, load_latest_checkpoints fs load cn path ≠ .ok D := by
  constructor
  · rw [load_latest_checkpoints, if_neg h]
  · intro D hc
    rw [load_latest_checkpoints, if_neg h] at hc
    exact absurd hc (by simp)

/-- C7: a variant subdirectory with zero entries is silently omitted from the
returned model collection, and discovery completes without failing. -/
theorem claim_C7 (fs : FS) (load : String → M) (cn : M → String)
    (path : String) (d : String)
    (hroot : path ∈ fs.dirs)
    (hmem : d ∈ fs.entriesOf path)
    (hdir : pathJoin path d ∈ fs.dirs)
    (hempty : fs.entriesOf (pathJoin path d) = []) :
    ∃ D : Discovery M, load_latest_checkpoints fs load cn path = .ok D ∧
      List.lookup d D.models = none := by
  refine ⟨_, by rw [load_latest_checkpoints, if_pos hroot], ?_⟩
  rw [foldl_discover_lookup_skip fs load cn path
    (Or.inr (sortedCheckpoints_nil fs _ hempty))]
  rfl

/-- C8 (amended): the architecture label is `archSpec` of the class names of
the loaded models in load order: `None` when no model was loaded, otherwise
the first *non-empty* class name — because line 110 tests Python truthiness
(`if not arch:`), an empty class name does not freeze the label and a later
load overwrites it; if every loaded class name is empty the label ends as the
empty string. -/
theorem claim_C8_amended (fs : FS) (load : String → M) (cn : M → String)
    (path : String) (D : Discovery M)
    (hok : load_latest_checkpoints fs load cn path = .ok D) :
    D.arch = archSpec (D.loadLog.map (fun p => cn (load p))) := by
  rw [load_latest_checkpoints] at hok
  by_cases hroot : path ∈ fs.dirs
  · rw [if_pos hroot] at hok
    have hD : (fs.entriesOf path).foldl (discoverStep fs load cn path)
        ⟨[], none, []⟩ = D := by
      injection hok
    rcases foldl_discover_arch_log fs load cn path (fs.entriesOf path)
      ⟨[], none, []⟩ with ⟨t, hlog, harch⟩
    rw [hD] at hlog harch
    simp only [List.nil_append] at hlog
    rw [harch, hlog, foldl_archUpdate_none]
  · rw [if_neg hroot] at hok
    exact absurd hok (by simp)

/-- C2: chart export never overwrites.  (i) The probe (a total function —
it cannot raise) returns a path that does not exist, namely the first unused
candidate among base, `_1`, `_2`, ...; (ii) in any chart-loop run, every
written chart goes to a path that was neither an existing file nor an
existing directory before the run, and no two written charts share a path. -/
theorem claim_C2 (files dirs : List String) (sp ext : String)
    (infid : Evaluator M Tok Dev → Except E S) (archStr : String)
    (dict : List (String × List (String × Evaluator M Tok Dev))) (st : RunState S) :
    (pathExistsB files dirs (uniqueChartPath files dirs sp ext) = false ∧
      ∃ j, uniqueChartPath files dirs sp ext = cand sp ext j ∧
        ∀ t, t < j → pathExistsB files dirs (cand sp ext t) = true) ∧
    (∃ new : List (Chart S),
      (runCharts infid archStr dict st).1.charts = st.charts ++ new ∧
      (∀ c ∈ new, c.path ∉ st.files ∧ c.path ∉ st.dirs) ∧
      (new.map (fun c => c.path)).Nodup) := by
  constructor
  · exact uniqueChartPath_spec files dirs sp ext
  · rcases runCharts_fresh infid archStr dict st with ⟨new, h1, _, _, h4, h5⟩
    exact ⟨new, h1, h4, h5⟩

/-- C4: over distinct explainer kinds and distinct variant names, the
evaluator dict has exactly the requested kinds as keys, each inner dict has
exactly the variants as keys, every Evaluator's Explainer is bound to its own
variant's model with the shared tokenizer and device, all Explainer
allocation ids are pairwise distinct (no Explainer/Evaluator instance is
shared between two slots), and the total number of Evaluators is
`kinds × variants`. -/
theorem claim_C4 (explainers : List String) (models : List (String × M))
    (tok : Tok) (dev : Dev)
    (hk : explainers.Nodup) (hm : (models.map Prod.fst).Nodup) :
    (buildEvaluators explainers models tok dev).map Prod.fst = explainers ∧
    (∀ p ∈ buildEvaluators explainers models tok dev,
      p.2.map Prod.fst = models.map Prod.fst) ∧
    (∀ p ∈ buildEvaluators explainers models tok dev, ∀ q ∈ p.2,
      q.2.explainer.kind = p.1 ∧ (q.1, q.2.explainer.model) ∈ models ∧
      q.2.explainer.tokenizer = tok ∧ q.2.explainer.device = dev) ∧
    (((buildEvaluators explainers models tok dev).map
      (fun p => p.2.map (fun q => q.2.explainer.id))).flatten).Nodup ∧
    ((buildEvaluators explainers models tok dev).map Prod.snd).flatten.length =
      explainers.length * models.length := by
  rw [buildEvaluators_eq_buildC explainers models tok dev hk hm]
  refine ⟨buildC_keys models tok dev 0 explainers, ?_, ?_, ?_, ?_⟩
  · intro p hp
    rcases buildC_mem models tok dev 0 explainers p hp with ⟨c', hc'⟩
    rw [hc']
    exact innerC_keys p.1 tok dev c' models
  · intro p hp q hq
    rcases buildC_mem models tok dev 0 explainers p hp with ⟨c', hc'⟩
    rw [hc'] at hq
    exact innerC_mem p.1 tok dev c' models q hq
  · rw [buildC_flat_ids models tok dev 0 explainers]
    exact List.nodup_range' 0 _
  · exact buildC_total_length models tok dev 0 explainers

/-- C5: if the infidelity computation raises for some evaluator of an
explainer kind present in the matrix, `eval_models` ends in a propagated
error (`some e` — nothing catches it) and its final state contains no chart
for that explainer kind. -/
theorem claim_C5 (fs : FS) (load : String → M) (cn : M → String) (path : String)
    (explainers : List String) (tok : Tok) (dev : Dev)
    (infid : Evaluator M Tok Dev → Except E S)
    (D : Discovery M) (exp : String) (evs : List (String × Evaluator M Tok Dev))
    (err : E)
    (hok : load_latest_checkpoints fs load cn path = .ok D)
    (hk : explainers.Nodup) (hm : (D.models.map Prod.fst).Nodup)
    (hmem : (exp, evs) ∈ buildEvaluators explainers D.models tok dev)
    (hagg : aggregateKind infid evs [] = .error err) :
    ∃ (st : RunState S) (e : E),
      eval_models fs load cn path explainers tok dev infid = .ok (st, some e) ∧
      ∀ c ∈ st.charts, c.kind ≠ exp := by
  have hkeys : ((buildEvaluators explainers D.models tok dev).map Prod.fst).Nodup := by
    rw [buildEvaluators_eq_buildC explainers D.models tok dev hk hm,
      buildC_keys D.models tok dev 0 explainers]
    exact hk
  have hrun := runCharts_error infid (pyStrOfArch D.arch)
    (buildEvaluators explainers D.models tok dev)
    ({ files := fs.files, dirs := fs.dirs, fig := emptyFig, charts := [] } : RunState S)
    exp evs err hkeys hmem hagg
  rcases Option.isSome_iff_exists.mp hrun.1 with ⟨e, he⟩
  refine ⟨(runCharts infid (pyStrOfArch D.arch)
      (buildEvaluators explainers D.models tok dev)
      { files := fs.files, dirs := fs.dirs, fig := emptyFig, charts := [] }).1, e, ?_, ?_⟩
  · rw [eval_models, hok, ← he]
  · intro c hc hkind
    have := hrun.2 c hc hkind
    exact absurd this (List.not_mem_nil c)

/-- C9: the aggregation of lines 36–43, with the evaluator's infidelity
computation modelled from the spec (deterministic seeded sampling, external
per-example discrepancy, scalar reduction), is deterministic: two runs over
identical matrices, test sets, `k`, sampling fractions and seeds produce
identical mappings for every explainer kind. -/
theorem claim_C9 (sample : Nat → List Ex → Q → List Ex)
    (discrepancy : Explainer M Tok Dev → Nat → Ex → D) (reduce : List D → S)
    (matrix₁ matrix₂ : List (String × List (String × Evaluator M Tok Dev)))
    (seed₁ seed₂ : Nat) (ts₁ ts₂ : List Ex) (k₁ k₂ : Nat) (ptg₁ ptg₂ : Q)
    (hm : matrix₁ = matrix₂) (hs : seed₁ = seed₂) (ht : ts₁ = ts₂)
    (hk : k₁ = k₂) (hp : ptg₁ = ptg₂) :
    aggregateAll
      (fun ev => (.ok (specInfidelity sample discrepancy reduce seed₁ ts₁ k₁ ptg₁ ev) :
        Except E S))
      matrix₁ =
    aggregateAll
      (fun ev => (.ok (specInfidelity sample discrepancy reduce seed₂ ts₂ k₂ ptg₂ ev) :
        Except E S))
      matrix₂ := by
  subst hm
  subst hs
  subst ht
  subst hk
  subst hp
  rfl

/-- C10: when no variant subdirectory has any checkpoint entry, the pipeline
does not fail: for every requested explainer kind it writes exactly one chart
with zero bars, whose file name uses the literal label `None`
(`results/figs/{kind}_topk_None.png`). -/
theorem claim_C10 (fs : FS) (load : String → M) (cn : M → String) (path : String)
    (explainers : List String) (tok : Tok) (dev : Dev)
    (infid : Evaluator M Tok Dev → Except E S)
    (hdir : path ∈ fs.dirs)
    (hempty : ∀ e ∈ fs.entriesOf path, pathJoin path e ∈ fs.dirs →
      fs.entriesOf (pathJoin path e) = [])
    (hk : explainers.Nodup)
    (hfresh : ∀ k ∈ explainers,
      (chartBasePath k "None" ++ ".png") ∉ fs.files ∧
      (chartBasePath k "None" ++ ".png") ∉ fs.dirs) :
    ∃ st : RunState S,
      eval_models fs load cn path explainers tok dev infid = .ok (st, none) ∧
      st.charts = explainers.map (fun k =>
        ⟨k, chartBasePath k "None" ++ ".png",
          ⟨[], [], "Model", "Infidelity", chartTitle k "None"⟩⟩) := by
  have hdisc := discover_empty fs load cn path hdir hempty
  have hbuild : buildEvaluators explainers ([] : List (String × M)) tok dev =
      explainers.map (fun k => (k, [])) := by
    rw [buildEvaluators_eq_buildC explainers [] tok dev hk (by simp)]
    exact buildC_nil_models tok dev 0 explainers
  have hrun := runCharts_empty infid "None" explainers
    ({ files := fs.files, dirs := fs.dirs, fig := emptyFig, charts := [] } : RunState S)
    rfl hk hfresh
  refine ⟨(runCharts infid "None" (explainers.map (fun k => (k, [])))
    { files := fs.files, dirs := fs.dirs, fig := emptyFig, charts := [] }).1, ?_, ?_⟩
  · rw [eval_models, hdisc]
    show Except.ok (runCharts infid (pyStrOfArch none)
      (buildEvaluators explainers [] tok dev)
      { files := fs.files, dirs := fs.dirs, fig := emptyFig, charts := [] }) = _
    rw [show pyStrOfArch none = "None" from rfl, hbuild]
    rw [show (runCharts infid "None" (explainers.map (fun k => (k, [])))
        { files := fs.files, dirs := fs.dirs, fig := emptyFig, charts := [] }) =
        ((runCharts infid "None" (explainers.map (fun k => (k, [])))
          { files := fs.files, dirs := fs.dirs, fig := emptyFig, charts := [] }).1,
         (runCharts infid "None" (explainers.map (fun k => (k, [])))
          { files := fs.files, dirs := fs.dirs, fig := emptyFig, charts := [] }).2) from rfl,
      hrun.1]
  · rw [hrun.2]
    simp

theorem mergeSort_pair {α : Type} (le : α → α → Bool) (a b : α) :
    [a, b].mergeSort le = if le a b then [a, b] else [b, a] := by
  simp [List.mergeSort, List.merge]

theorem sortedCheckpoints_singleton (fs : FS) (mp e : String)
    (h : fs.entriesOf mp = [e]) :
    sortedCheckpoints fs mp = [pathJoin mp e] := by
  rw [sortedCheckpoints, h, List.map_cons, List.map_nil, List.mergeSort_singleton]

theorem sortedCheckpoints_pair (fs : FS) (mp e1 e2 : String)
    (h : fs.entriesOf mp = [e1, e2])
    (hlt : fs.mtime (pathJoin mp e1) < fs.mtime (pathJoin mp e2)) :
    sortedCheckpoints fs mp = [pathJoin mp e2, pathJoin mp e1] := by
  rw [sortedCheckpoints, h, List.map_cons, List.map_cons, List.map_nil,
    mergeSort_pair]
  rw [if_neg]
  simp only [decide_eq_true_eq]
  omega

theorem discoverStep_eval (fs : FS) (load : String → M) (cn : M → String)
    (path : String) (acc : Discovery M) (e : String) {latest : String}
    {rest : List String} (hdir : pathJoin path e ∈ fs.dirs)
    (hs : sortedCheckpoints fs (pathJoin path e) = latest :: rest) :
    discoverStep fs load cn path acc e =
      ⟨dictInsert acc.models e (load latest),
       if pyFalsy acc.arch then some (cn (load latest)) else acc.arch,
       acc.loadLog ++ [latest]⟩ := by
  simp only [discoverStep, hdir, if_true, hs]

theorem fsTwoVariants_discovery :
    load_latest_checkpoints fsTwoVariants loadId cnEmptyA "./ckpts" =
      .ok ⟨[("a", "./ckpts/a/c1"), ("b", "./ckpts/b/c2")], some "Bert",
           ["./ckpts/a/c1", "./ckpts/b/c2"]⟩ := by
  rw [load_latest_checkpoints, if_pos (by decide)]
  rw [show fsTwoVariants.entriesOf "./ckpts" = ["a", "b"] from by decide]
  rw [List.foldl_cons, List.foldl_cons, List.foldl_nil]
  rw [discoverStep_eval fsTwoVariants loadId cnEmptyA "./ckpts" _ "a" (by decide)
    (sortedCheckpoints_singleton fsTwoVariants (pathJoin "./ckpts" "a") "c1" (by decide))]
  rw [discoverStep_eval fsTwoVariants loadId cnEmptyA "./ckpts" _ "b" (by decide)
    (sortedCheckpoints_singleton fsTwoVariants (pathJoin "./ckpts" "b") "c2" (by decide))]
  exact congrArg Except.ok (by decide)

theorem fsTwoCkpts_discovery :
    load_latest_checkpoints fsTwoCkpts loadId cnBert "./ckpts" =
      .ok ⟨[("base", "./ckpts/base/c2")], some "Bert", ["./ckpts/base/c2"]⟩ := by
  rw [load_latest_checkpoints, if_pos (by decide)]
  rw [show fsTwoCkpts.entriesOf "./ckpts" = ["base"] from by decide]
  rw [List.foldl_cons, List.foldl_nil]
  rw [discoverStep_eval fsTwoCkpts loadId cnBert "./ckpts" _ "base" (by decide)
    (sortedCheckpoints_pair fsTwoCkpts (pathJoin "./ckpts" "base") "c1" "c2"
      (by decide) (by decide))]
  exact congrArg Except.ok (by decide)

/-- C6: the code never clears the matplotlib figure between explainer
iterations (no `plt.clf()`/`plt.figure()`), so `plt.bar` accumulates: over
the kinds `[SHAP, LIME]` and the single variant `base`, the first saved chart
has one bar as specified, but the second (LIME) chart contains two bars —
the stale SHAP bar `(0, 0)` plus the LIME bar `(0, 1)` — while its x-axis
has the single tick `base`; the spec and the docstring promise exactly one
bar per variant in every chart. -/
theorem claim_C6 :
    ((runCharts (fun ev => (.ok ev.explainer.id : Except Unit Nat)) "Bert"
      [("SHAP", [("base", ⟨⟨0, "SHAP", 0, (), ()⟩⟩)]),
       ("LIME", [("base", ⟨⟨1, "LIME", 0, (), ()⟩⟩)])]
      ⟨[], [], emptyFig, []⟩).1.charts.map
        (fun c => (c.kind, c.fig.bars, c.fig.xticks)) =
      [("SHAP", [(0, 0)], [(0, "base")]),
       ("LIME", [(0, 0), (0, 1)], [(0, "base")])]) ∧
    ((runCharts (fun ev => (.ok ev.explainer.id : Except Unit Nat)) "Bert"
      [("SHAP", [("base", ⟨⟨0, "SHAP", 0, (), ()⟩⟩)]),
       ("LIME", [("base", ⟨⟨1, "LIME", 0, (), ()⟩⟩)])]
      ⟨[], [], emptyFig, []⟩).1.charts.map (fun c => (c.path, c.fig.title)) =
      [("results/figs/SHAP_topk_Bert.png",
        "Infidelity of SHAP Explanations for Differently Pruned Versions of Bert"),
       ("results/figs/LIME_topk_Bert.png",
        "Infidelity of LIME Explanations for Differently Pruned Versions of Bert")]) := by
  constructor
  · decide
  · decide

/-- C8 (counterexample): on `fsTwoVariants` with `cnEmptyA`, the first
successfully loaded model (variant `a`) has class name `""`, yet the returned
architecture label is `some "Bert"` — the label taken from the *second* load
— so discovery does not resolve the label from the first loaded model. -/
theorem claim_C8_counterexample :
    load_latest_checkpoints fsTwoVariants loadId cnEmptyA "./ckpts" =
      .ok ⟨[("a", "./ckpts/a/c1"), ("b", "./ckpts/b/c2")], some "Bert",
           ["./ckpts/a/c1", "./ckpts/b/c2"]⟩ ∧
    cnEmptyA (loadId "./ckpts/a/c1") = "" ∧
    (some "Bert" : Option String) ≠ some "" := by
  exact ⟨fsTwoVariants_discovery, by decide, by decide⟩

theorem claim_C1_witness :
    ∃ latest,
      latest ∈ (fsTwoCkpts.entriesOf (pathJoin "./ckpts" "base")).map
        (pathJoin (pathJoin "./ckpts" "base")) ∧
      (∀ c ∈ (fsTwoCkpts.entriesOf (pathJoin "./ckpts" "base")).map
        (pathJoin (pathJoin "./ckpts" "base")),
        fsTwoCkpts.mtime c ≤ fsTwoCkpts.mtime latest) ∧
      List.lookup "base"
        (Discovery.models ⟨[("base", "./ckpts/base/c2")], some "Bert",
          ["./ckpts/base/c2"]⟩) = some (loadId latest) :=
  claim_C1 fsTwoCkpts loadId cnBert "./ckpts"
    ⟨[("base", "./ckpts/base/c2")], some "Bert", ["./ckpts/base/c2"]⟩ "base"
    fsTwoCkpts_discovery (by decide) (by decide) (by decide)

theorem claim_C2_witness :
    pathExistsB ["results/figs/SHAP_topk_None.png"] []
      (uniqueChartPath ["results/figs/SHAP_topk_None.png"] []
        "results/figs/SHAP_topk_None" ".png") = false ∧
    uniqueChartPath ["results/figs/SHAP_topk_None.png"] []
      "results/figs/SHAP_topk_None" ".png" = "results/figs/SHAP_topk_None_1.png" ∧
    uniqueChartPath
      ["results/figs/SHAP_topk_None.png", "results/figs/SHAP_topk_None_1.png"] []
      "results/figs/SHAP_topk_None" ".png" = "results/figs/SHAP_topk_None_2.png" :=
  ⟨(@claim_C2 Unit Unit Unit Unit Unit ["results/figs/SHAP_topk_None.png"] []
      "results/figs/SHAP_topk_None" ".png" (fun _ => .ok ()) "None" []
      ⟨[], [], emptyFig, []⟩).1.1,
   by decide, by decide⟩

theorem claim_C3_witness :
    load_latest_checkpoints fsNoVariants loadId cnBert "./missing" =
      .error ("The directory '" ++ "./missing" ++
        "' does not exist or is not a directory.") ∧
    ∀ D : Discovery String,
      load_latest_checkpoints fsNoVariants loadId cnBert "./missing" ≠ .ok D :=
  claim_C3 fsNoVariants loadId cnBert "./missing" (by decide)

theorem claim_C4_witness :
    ((buildEvaluators ["SHAP", "LIME"]
      [("base", 0), ("l1unstruct", 1), ("l2struct", 2)] () ()).map
        Prod.snd).flatten.length = 6 :=
  ((@claim_C4 Nat Unit Unit ["SHAP", "LIME"]
    [("base", 0), ("l1unstruct", 1), ("l2struct", 2)] () ()
    (by decide) (by decide)).2.2.2.2).trans (by decide)

theorem claim_C5_witness :
    ∃ (st : RunState Nat) (e : Unit),
      eval_models fsTwoCkpts loadId cnBert "./ckpts" ["SHAP"] () ()
        (fun _ => (.error () : Except Unit Nat)) = .ok (st, some e) ∧
      ∀ c ∈ st.charts, c.kind ≠ "SHAP" :=
  claim_C5 fsTwoCkpts loadId cnBert "./ckpts" ["SHAP"] () ()
    (fun _ => (.error () : Except Unit Nat))
    ⟨[("base", "./ckpts/base/c2")], some "Bert", ["./ckpts/base/c2"]⟩
    "SHAP" [("base", ⟨⟨0, "SHAP", "./ckpts/base/c2", (), ()⟩⟩)] ()
    fsTwoCkpts_discovery (by decide) (by decide) (by decide) rfl

theorem claim_C7_witness :
    ∃ D : Discovery String,
      load_latest_checkpoints fsEmptyVariant loadId cnBert "./ckpts" = .ok D ∧
      List.lookup "empty" D.models = none :=
  claim_C7 fsEmptyVariant loadId cnBert "./ckpts" "empty"
    (by decide) (by decide) (by decide) (by decide)

theorem claim_C8_witness :
    Discovery.arch
      (⟨[("a", "./ckpts/a/c1"), ("b", "./ckpts/b/c2")], some "Bert",
        ["./ckpts/a/c1", "./ckpts/b/c2"]⟩ : Discovery String) =
      archSpec ((["./ckpts/a/c1", "./ckpts/b/c2"]).map
        (fun p => cnEmptyA (loadId p))) :=
  claim_C8_amended fsTwoVariants loadId cnEmptyA "./ckpts"
    ⟨[("a", "./ckpts/a/c1"), ("b", "./ckpts/b/c2")], some "Bert",
      ["./ckpts/a/c1", "./ckpts/b/c2"]⟩
    fsTwoVariants_discovery

theorem claim_C9_witness :
    aggregateAll
      (fun ev => (.ok (specInfidelity (fun _ ts ptg => ts.take ptg)
        (fun _ k x => x + k) List.sum 42 [1, 2, 3] 1 2 ev) : Except Unit Nat))
      [("SHAP", [("base", ⟨⟨0, "SHAP", 0, (), ()⟩⟩)])] =
    aggregateAll
      (fun ev => (.ok (specInfidelity (fun _ ts ptg => ts.take ptg)
        (fun _ k x => x + k) List.sum 42 [1, 2, 3] 1 2 ev) : Except Unit Nat))
      [("SHAP", [("base", ⟨⟨0, "SHAP", 0, (), ()⟩⟩)])] :=
  claim_C9 (fun _ ts ptg => ts.take ptg) (fun _ k x => x + k) List.sum
    [("SHAP", [("base", ⟨⟨0, "SHAP", 0, (), ()⟩⟩)])]
    [("SHAP", [("base", ⟨⟨0, "SHAP", 0, (), ()⟩⟩)])]
    42 42 [1, 2, 3] [1, 2, 3] 1 1 2 2 rfl rfl rfl rfl rfl

theorem claim_C10_witness :
    ∃ st : RunState Nat,
      eval_models fsNoVariants loadId cnBert "./ckpts" ["SHAP"] () ()
        (fun _ => (.ok 0 : Except Unit Nat)) = .ok (st, none) ∧
      st.charts = ["SHAP"].map (fun k =>
        ⟨k, chartBasePath k "None" ++ ".png",
          ⟨[], [], "Model", "Infidelity", chartTitle k "None"⟩⟩) :=
  claim_C10 fsNoVariants loadId cnBert "./ckpts" ["SHAP"] () ()
    (fun _ => (.ok 0 : Except Unit Nat)) (by decide)
    (fun e he _ => absurd he (List.not_mem_nil e)) (by decide) (by decide)

end PruningExplainability
